import Mathlib

/-!
Verification development for the YAML transformer of detect-secrets
(src/detect_secrets/transformers/yaml.py).

The embedding models:
  * the constructed Python values returned by `YAMLFileParser.json()`
    (`PyVal`), including Python truthiness, `in`-membership semantics,
    subscription (`item[...]`, with `KeyError` / `TypeError`), and negative
    list indexing;
  * the breadth-first flattening loop of `YAMLFileParser.__iter__`
    (`step` / `iterQueue` / `iterItems`);
  * the line reconstruction of `YAMLTransformer.parse_file`
    (`renderLine` / `buildLines` / `parse_file`), including base64
    re-encoding of bytes, quote escaping, `str.strip`, and the inline
    comment regex `(\s+#[\S ]*)` (`commentSearch`);
  * the composition-interception helpers `_tag_dict_values` and
    `_create_key_value_pair_for_mapping_node_value` over a node model;
  * the flow-mapping shims `_parse_flow_mapping_key_shim` (its
    `is_inline_dictionary` decision) and `_check_next_tokens_shim`,
    and the line selection of `_compose_node_shim`.

Exceptions are modelled with `Except`; the fallible pieces return a
`PyErr`.  Recursions that a Python loop performs over a growing work queue
are written with an explicit fuel argument initialised to an upper bound of
the total work, so that all definitions compute by `decide` / `rfl`.
-/

namespace DS

/-- Python exceptions relevant to the transformer.  `yamlError` stands for
any `yaml.YAMLError` raised by the external PyYAML machinery;
`parsingError` is detect-secrets' own `ParsingError`. -/
inductive PyErr where
  | yamlError
  | parsingError
  | keyError
  | indexError
  | typeError
  | attributeError
deriving DecidableEq, Repr

/-- Constructed Python values as produced by `yaml.SafeLoader` construction
(`YAMLFileParser.json()`): strings, bytes, ints, floats, bools, None,
dicts (ordered key/value association lists) and lists.  The float payload is
an abstract stand-in: only its truthiness and its type matter to the
embedded logic. -/
inductive PyVal where
  | str (s : String)
  | bytes (b : List Nat)
  | int (n : Int)
  | float (q : Int)
  | bool (b : Bool)
  | none
  | dict (entries : List (PyVal × PyVal))
  | list (elems : List PyVal)

mutual

/-- Structural size of a `PyVal`; for dicts only the values count, because
the breadth-first search of `__iter__` only ever enqueues dict values. -/
def PyVal.size : PyVal → Nat
  | .dict es => 1 + sizePairs es
  | .list xs => 1 + sizeList xs
  | _ => 1

def sizePairs : List (PyVal × PyVal) → Nat
  | [] => 0
  | e :: rest => e.2.size + sizePairs rest

def sizeList : List PyVal → Nat
  | [] => 0
  | v :: rest => v.size + sizeList rest

end

/-- Python truthiness: `if not item` skips falsy items. -/
def isFalsy : PyVal → Bool
  | .str s => s == ""
  | .bytes b => b.isEmpty
  | .int n => n == 0
  | .float q => q == 0
  | .bool b => !b
  | .none => true
  | .dict es => es.isEmpty
  | .list xs => xs.isEmpty

/-- The characters Python's `str.strip()` and the regex class `\s` treat as
whitespace (ASCII scope). -/
def pyWS (c : Char) : Bool :=
  c = ' ' || c = '\t' || c = '\n' || c = '\r' || c = '\x0b' || c = '\x0c'

/-- Python `str.strip()`. -/
def pyStrip (s : String) : String :=
  String.mk (((s.data.dropWhile pyWS).reverse.dropWhile pyWS).reverse)

/-- The characters matched by the regex class `[\S ]` in
`_yaml_comment_regex`: any non-whitespace character, or a space.  Note that
a tab is excluded. -/
def inCommentCls (c : Char) : Bool :=
  !pyWS c || c = ' '

/-- Search loop for the first match of `(\s+#[\S ]*)` (the compiled pattern
of `_yaml_comment_regex`, applied with `re.search`).  `run` accumulates, in
reverse, the whitespace run immediately preceding the current position; a
`'#'` reached with a non-empty run yields the match: the run, the `'#'`,
and the longest following run of `[\S ]` characters (group 0 of the
match). -/
def commentLoop : List Char → List Char → Option (List Char)
  | _, [] => Option.none
  | run, c :: rest =>
    if c = '#' then
      if run.isEmpty then commentLoop [] rest
      else Option.some (run.reverse ++ '#' :: rest.takeWhile inCommentCls)
    else if pyWS c then commentLoop (c :: run) rest
    else commentLoop [] rest

/-- First match of `(\s+#[\S ]*)` in a character list. -/
def commentSearch (cs : List Char) : Option (List Char) :=
  commentLoop [] cs

/-- The comment string extracted by `parse_file` for one item: the source
line is first stripped (`line = item.line.strip()`), then searched with
`_yaml_comment_regex`; with no match the comment is the empty string. -/
def commentOf (rawLine : String) : String :=
  match commentSearch (pyStrip rawLine).data with
  | Option.some cs => String.mk cs
  | Option.none => ""

/-- `value.replace('"', '\\"')` on a single character. -/
def escapeChar (c : Char) : List Char :=
  if c = '"' then ['\\', '"'] else [c]

/-- `value.replace('"', '\\"')`: every double quote becomes a backslash
followed by a quote. -/
def escapeQuotes (s : String) : String :=
  String.mk (s.data.map escapeChar).flatten

/-- Standard base64 alphabet used by Python's `base64.b64encode`. -/
def b64Alphabet : List Char :=
  "ABCDEFGHIJKLMNOPQRSTUVWXYZabcdefghijklmnopqrstuvwxyz0123456789+/".data

def b64Char (i : Nat) : Char := b64Alphabet.getD i 'A'

/-- `base64.b64encode` over a byte list (each byte already reduced
mod 256 by construction of the value). -/
def b64encodeBytes : List Nat → List Char
  | b1 :: b2 :: b3 :: rest =>
      b64Char (b1 / 4) :: b64Char ((b1 % 4) * 16 + b2 / 16) ::
      b64Char ((b2 % 16) * 4 + b3 / 64) :: b64Char (b3 % 64) ::
      b64encodeBytes rest
  | [b1, b2] =>
      [b64Char (b1 / 4), b64Char ((b1 % 4) * 16 + b2 / 16),
       b64Char ((b2 % 16) * 4), '=']
  | [b1] =>
      [b64Char (b1 / 4), b64Char ((b1 % 4) * 16), '=', '=']
  | [] => []

/-- `base64.b64encode(value).decode()`. -/
def b64encodeStr (b : List Nat) : String :=
  String.mk (b64encodeBytes b)

/-- Escape of `'` and `\` used when rendering Python `repr` of a string. -/
def reprEscChar (c : Char) : List Char :=
  if c = '\\' then ['\\', '\\'] else if c = '\'' then ['\\', '\''] else [c]

mutual

/-- Python `str()` conversion as used by the f-string
`f'{item.key}: "{value}"{comment}'`.  Strings convert to themselves;
other values use their `repr`-style form.  (Container and float rendering
is an ASCII approximation of CPython's `repr`; every theorem below only
ever renders string keys.) -/
def pyStr : PyVal → String
  | .str s => s
  | v => pyRepr v

def pyRepr : PyVal → String
  | .str s => String.mk ('\'' :: (s.data.map reprEscChar).flatten ++ ['\''])
  | .bytes b => String.mk ('b' :: '\'' :: (b.map (fun n => Char.ofNat n)) ++ ['\''])
  | .int n => toString n
  | .float q => toString q ++ ".0"
  | .bool b => if b then "True" else "False"
  | .none => "None"
  | .dict es => "\x7b" ++ String.intercalate ", " (pyReprPairs es) ++ "\x7d"
  | .list xs => "[" ++ String.intercalate ", " (pyReprList xs) ++ "]"

def pyReprPairs : List (PyVal × PyVal) → List String
  | [] => []
  | e :: rest => (pyRepr e.1 ++ ": " ++ pyRepr e.2) :: pyReprPairs rest

def pyReprList : List PyVal → List String
  | [] => []
  | v :: rest => pyRepr v :: pyReprList rest

end

/-- One record yielded by `YAMLFileParser.__iter__` (the `YAMLValue`
NamedTuple).  `key` and `value` hold whatever Python objects
`item['__original_key__']` and `item['__value__']` produced; `line_number`
is necessarily numeric for a successfully yielded record, because the
`lines[item['__line__'] - 1]` lookup in the same `yield` expression would
otherwise have raised. -/
structure YAMLValue where
  key : PyVal
  value : PyVal
  line_number : Int
  line : String

/-- The pattern `"__line__"` as characters. -/
def lineMarker : List Char := "__line__".data

/-- Does `pat` occur at the head of `cs`? -/
def subAt : List Char → List Char → Bool
  | [], _ => true
  | _ :: _, [] => false
  | p :: ps, c :: cs => p = c && subAt ps cs

/-- Does `"__line__"` occur anywhere in `cs`?  (Python `'__line__' in s`
substring semantics.) -/
def hasLineSub : List Char → Bool
  | [] => false
  | c :: cs => subAt lineMarker (c :: cs) || hasLineSub cs

/-- Python `str.endswith` over the underlying characters: does `pat` occur
at the end of `s`? -/
def strEndsWith (s pat : String) : Bool :=
  subAt pat.data.reverse s.data.reverse

/-- Python `==` against the string `'__line__'` (only a str compares equal
to a str). -/
def eqLineStr : PyVal → Bool
  | .str s => s == "__line__"
  | _ => false

/-- Result of evaluating `'__line__' in item`: a boolean, or a
`TypeError` for non-container scalars (int, float, bool, None, bytes). -/
inductive MemChk where
  | ok (b : Bool)
  | tyErr

/-- `'__line__' in item`: key membership for dicts, element membership for
lists, substring membership for strings, `TypeError` otherwise. -/
def hasMarkerChk : PyVal → MemChk
  | .dict es => .ok (es.any (fun e => eqLineStr e.1))
  | .list xs => .ok (xs.any eqLineStr)
  | .str s => .ok (hasLineSub s.data)
  | _ => .tyErr

/-- `'__line__' in item` collapsed to a boolean (a `TypeError` means the
marker was not found and the item is skipped). -/
def hasMarkerB (v : PyVal) : Bool :=
  match hasMarkerChk v with
  | .ok b => b
  | .tyErr => false

/-- Python `==` of a dict key against a given string index. -/
def eqStrName (name : String) : PyVal → Bool
  | .str s => s == name
  | _ => false

/-- Python subscription `item[name]` for a string index: first matching
dict entry, `KeyError` when absent, `TypeError` on strings and lists. -/
def getItem (v : PyVal) (name : String) : Except PyErr PyVal :=
  match v with
  | .dict es =>
    match es.find? (fun e => eqStrName name e.1) with
    | Option.some e => .ok e.2
    | Option.none => .error .keyError
  | _ => .error .typeError

/-- Python list indexing `lines[i]` with negative-index wrap-around;
`Option.none` models an `IndexError`. -/
def pyGet {α : Type} (xs : List α) (i : Int) : Option α :=
  if 0 ≤ i then xs.get? i.toNat
  else if (-i).toNat ≤ xs.length then xs.get? (xs.length - (-i).toNat)
  else Option.none

/-- `item['__line__'] - 1` needs a numeric value; Python bools are ints
(`True == 1`). -/
def asIndex : PyVal → Option Int
  | .int n => Option.some n
  | .bool b => Option.some (if b then 1 else 0)
  | _ => Option.none

/-- Result of processing one queue item in `__iter__`'s loop body. -/
inductive StepRes where
  | skip
  | descend (children : List PyVal)
  | emit (v : YAMLValue)
  | error (e : PyErr)

/-- One iteration of the `while to_search:` loop of
`YAMLFileParser.__iter__`, for the popped `item`:
falsy items are skipped; a `TypeError` from the membership check is caught
and the item skipped; without the `'__line__'` marker, strings are skipped
and dicts/lists are descended into (values / elements); with the marker the
item is yielded, evaluating `item['__original_key__']`,
`item['__value__']`, `item['__line__']` and `lines[item['__line__'] - 1]`
in that order, errors from which escape the loop uncaught. -/
def step (lines : List String) (item : PyVal) : StepRes :=
  if isFalsy item then .skip
  else
    match hasMarkerChk item with
    | .tyErr => .skip
    | .ok false =>
      match item with
      | .str _ => .skip
      | .dict es => .descend (es.map (fun e => e.2))
      | .list xs => .descend xs
      | _ => .skip
    | .ok true =>
      match getItem item "__original_key__" with
      | .error e => .error e
      | .ok k =>
        match getItem item "__value__" with
        | .error e => .error e
        | .ok v =>
          match getItem item "__line__" with
          | .error e => .error e
          | .ok lnv =>
            match asIndex lnv with
            | Option.none => .error .typeError
            | Option.some n =>
              match pyGet lines (n - 1) with
              | Option.none => .error .indexError
              | Option.some line => .emit (YAMLValue.mk k v n line)

/-- The breadth-first work-queue loop of `__iter__` (pop from the front,
extend at the back), run with explicit fuel.  The fuel is initialised to
the total structural size of the queue, which strictly exceeds the work
performed, so the `0, _ :: _` branch is never reached. -/
def iterQueue (lines : List String) : Nat → List PyVal → Except PyErr (List YAMLValue)
  | _, [] => .ok []
  | 0, _ :: _ => .ok []
  | Nat.succ fuel, item :: rest =>
    match step lines item with
    | .skip => iterQueue lines fuel rest
    | .descend cs => iterQueue lines fuel (rest ++ cs)
    | .emit yv =>
      match iterQueue lines fuel rest with
      | .ok tail => .ok (yv :: tail)
      | .error e => .error e
    | .error e => .error e

/-- `list(YAMLFileParser(file))`: flatten the constructed document value
into the sequence of `YAMLValue` records, or the first uncaught
exception. -/
def iterItems (lines : List String) (root : PyVal) : Except PyErr (List YAMLValue) :=
  iterQueue lines (sizeList [root]) [root]

/-- Is the value a str or bytes (the two cases `parse_file` renders without
raising)? -/
def isStrOrBytes : PyVal → Bool
  | .str _ => true
  | .bytes _ => true
  | _ => false

/-- The text `parse_file` quotes for one item: bytes are re-encoded with
`base64.b64encode(value).decode()`, strings pass through.  (Total helper;
`renderLine` raises `AttributeError` for every other type, so the last
branch is never consulted.) -/
def valueText : PyVal → String
  | .bytes b => b64encodeStr b
  | .str s => s
  | _ => ""

/-- Rendering of `f'{item.key}: "{value}"{comment}'` for the already
str-converted value text: escape embedded quotes, extract the inline
comment from the stripped source line, and concatenate. -/
def renderCore (item : YAMLValue) (value0 : String) : String :=
  pyStr item.key ++ ": \"" ++ escapeQuotes value0 ++ "\"" ++ commentOf item.line

/-- The body of `parse_file`'s loop for one item, after the padding step:
base64-re-encode bytes values, extract the inline comment from the stripped
source line, escape embedded quotes, and render
`f'{item.key}: "{value}"{comment}'`.  A value that is neither bytes nor str
has no `.replace` method: `AttributeError`. -/
def renderLine (item : YAMLValue) : Except PyErr String :=
  match item.value with
  | .bytes b => .ok (renderCore item (b64encodeStr b))
  | .str s => .ok (renderCore item s)
  | _ => .error .attributeError

/-- Pure form of the rendered line (equal to `renderLine`'s payload
whenever the value is str or bytes). -/
def renderLineStr (item : YAMLValue) : String :=
  pyStr item.key ++ ": \"" ++ escapeQuotes (valueText item.value) ++ "\"" ++ commentOf item.line

/-- Ordered insertion by `line_number` (stable: an element inserted from
the original front goes before equal keys, as Python's stable `sorted`
does). -/
def insertByLine (x : YAMLValue) : List YAMLValue → List YAMLValue
  | [] => [x]
  | y :: ys =>
    if x.line_number ≤ y.line_number then x :: y :: ys
    else y :: insertByLine x ys

/-- `sorted(items, key=lambda x: x.line_number)`. -/
def sortItems : List YAMLValue → List YAMLValue
  | [] => []
  | x :: xs => insertByLine x (sortItems xs)

/-- The accumulation loop of `parse_file`: pad with empty strings while
`len(lines) < item.line_number - 1`, then append the rendered line. -/
def buildLinesAux : List String → List YAMLValue → Except PyErr (List String)
  | acc, [] => .ok acc
  | acc, item :: rest =>
    match renderLine item with
    | .error e => .error e
    | .ok r =>
      buildLinesAux
        ((acc ++ List.replicate (Int.toNat (item.line_number - 1 - acc.length)) "") ++ [r])
        rest

def buildLines (items : List YAMLValue) : Except PyErr (List String) :=
  buildLinesAux [] items

/-- Reconstruction performed on the already-yielded items: the explicit
post-sort by `line_number`, then the padding/rendering loop. -/
def processItems (items : List YAMLValue) : Except PyErr (List String) :=
  buildLines (sortItems items)

/-- `YAMLTransformer.parse_file`, taking the result of the external
PyYAML parse/construct stage (`YAMLFileParser.json()`) as an `Except`
parameter.  The `try`/`except yaml.YAMLError` around
`sorted(YAMLFileParser(file), ...)` maps any `yaml.YAMLError` (raised
while constructing or iterating) to `ParsingError`; other exceptions
propagate; on success the reconstruction loop runs. -/
def parse_file (lines : List String) (jsonRes : Except PyErr PyVal) :
    Except PyErr (List String) :=
  match (match jsonRes with
         | .error e => .error e
         | .ok root => iterItems lines root : Except PyErr (List YAMLValue)) with
  | .error .yamlError => .error .parsingError
  | .error e => .error e
  | .ok items => processItems items

/-!  Composition-time node model (`yaml.nodes` objects as the shims see
them).  A node carries its class (scalar / mapping / sequence), its `tag`
string, its payload (`node.value`), and the `__line__` attribute that
`_compose_node_shim` attaches (synthetic nodes made by `_tag_dict_values`
are created outside the shim and never receive — nor ever have read — a
`__line__`; they carry 0 here).  The `scalarPairs` / `scalarElems`
constructors represent `ScalarNode`s whose `value` holds a non-string
payload, which `_create_key_value_pair_for_mapping_node_value` can build
when a collection node carries an explicitly tagged `:str` tag. -/

inductive Node where
  | scalar (tag : String) (value : String) (line : Nat)
  | scalarPairs (tag : String) (value : List (Node × Node)) (line : Nat)
  | scalarElems (tag : String) (value : List Node) (line : Nat)
  | mapping (tag : String) (value : List (Node × Node)) (line : Nat)
  | sequence (tag : String) (value : List Node) (line : Nat)

/-- `node.tag`. -/
def Node.tag : Node → String
  | .scalar t _ _ => t
  | .scalarPairs t _ _ => t
  | .scalarElems t _ _ => t
  | .mapping t _ _ => t
  | .sequence t _ _ => t

/-- The `__line__` attribute attached by `_compose_node_shim`. -/
def Node.lineAttr : Node → Nat
  | .scalar _ _ l => l
  | .scalarPairs _ _ l => l
  | .scalarElems _ _ l => l
  | .mapping _ _ l => l
  | .sequence _ _ l => l

/-- Untyped view of `node.value` (Python duck typing). -/
inductive Payload where
  | str (s : String)
  | pairs (l : List (Node × Node))
  | elems (l : List Node)

/-- `node.value`. -/
def Node.payload : Node → Payload
  | .scalar _ v _ => .str v
  | .scalarPairs _ v _ => .pairs v
  | .scalarElems _ v _ => .elems v
  | .mapping _ v _ => .pairs v
  | .sequence _ v _ => .elems v

/-- `yaml.nodes.ScalarNode(tag=tag, value=value)` for an arbitrary payload
(no marks, no `__line__`). -/
def mkScalarNode (tag : String) : Payload → Node
  | .str s => .scalar tag s 0
  | .pairs l => .scalarPairs tag l 0
  | .elems l => .scalarElems tag l 0

/-- `_create_key_value_pair_for_mapping_node_value(key, value, tag)`:
a pair of fresh `ScalarNode`s — a `:str`-tagged key node and a value node
with the given tag and payload. -/
def create_key_value_pair_for_mapping_node_value
    (key : String) (value : Payload) (tag : String) : Node × Node :=
  (Node.scalar "tag:yaml.org,2002:str" key 0, mkScalarNode tag value)

/-- The per-pair body of `_tag_dict_values`' loop: a pair whose value's tag
does not end in `:str` or `:binary` is kept; otherwise the value is
replaced by a `MappingNode` (tagged with the *parent* mapping's tag) of the
three fields `__value__`, `__line__` (stringified), `__original_key__`. -/
def rewritePair (mapTag : String) : Node × Node → Node × Node
  | (key, value) =>
    if !(strEndsWith value.tag ":str" || strEndsWith value.tag ":binary") then
      (key, value)
    else
      (key, Node.mapping mapTag
        [create_key_value_pair_for_mapping_node_value "__value__" value.payload value.tag,
         create_key_value_pair_for_mapping_node_value "__line__"
           (.str (toString value.lineAttr)) "tag:yaml.org,2002:int",
         create_key_value_pair_for_mapping_node_value "__original_key__"
           key.payload "tag:yaml.org,2002:str"]
        0)

/-- `_tag_dict_values(map_node)`: rebuild the mapping node with every
key/value pair passed through `rewritePair` (a fresh `MappingNode` with the
same tag, marks and flow style; the `__line__` attribute of the input node
is not copied onto the fresh node).  The function is only ever called on
`:map`-tagged nodes, which are `MappingNode`s in every composed tree; on
any other node class Python's tuple-unpacking of `map_node.value` would
raise, so the fall-through branch is never consulted. -/
def tag_dict_values : Node → Node
  | .mapping tag pairs _ => .mapping tag (pairs.map (rewritePair tag)) 0
  | n => n

/-- The key/value pair list of a mapping node (empty for other classes). -/
def Node.mappingPairs : Node → List (Node × Node)
  | .mapping _ pairs _ => pairs
  | _ => []

/-!  Flow-mapping shims.  The decision of `_parse_flow_mapping_key_shim`
and the token-buffer scan of `_check_next_tokens_shim` are functions of the
loader state the Python code reads: the `first` argument, the line of
`self.loader.marks[-1]` (the start mark of the innermost open flow
collection), the line of `self.loader.peek_token().start_mark`, and the
buffered token list `self.loader.tokens`. -/

/-- Lexical token kinds relevant to the shims (`yaml.tokens`). -/
inductive Tok where
  | flowEntry
  | keyTok
  | scalarTok
  | flowMappingEnd
  | other
deriving DecidableEq, Repr

/-- `isinstance(token, FlowEntryToken)`. -/
def isFlowEntryTok : Tok → Bool
  | .flowEntry => true
  | _ => false

/-- `isinstance(token, KeyToken)`. -/
def isKeyTok : Tok → Bool
  | .keyTok => true
  | _ => false

/-- The indexed conjunction loop of `_check_next_tokens_shim`: `result`
starts `True` and, for each choice while buffered tokens remain, is
conjoined with the class test of the next buffered token. -/
def checkChoicesLoop : List (Tok → Bool) → List Tok → Bool
  | c :: cs, t :: ts => c t && checkChoicesLoop cs ts
  | _, _ => true

/-- `_check_next_tokens_shim(*choices)`: `False` when no tokens are
buffered; `True` when no choices are given; otherwise each of the first
`min(len(choices), len(tokens))` buffered tokens must match its choice —
choices beyond the buffered tokens are silently skipped. -/
def check_next_tokens_shim (tokens : List Tok) (choices : List (Tok → Bool)) : Bool :=
  match tokens with
  | [] => false
  | _ :: _ =>
    match choices with
    | [] => true
    | _ :: _ => checkChoicesLoop choices tokens

/-- The `is_inline_dictionary` decision of `_parse_flow_mapping_key_shim`
(Python precedence: `first and A == B or check(...)`). -/
def is_inline_dictionary (first : Bool) (marksTopLine : Nat)
    (peekTokenStartLine : Nat) (tokens : List Tok) : Bool :=
  (first && (marksTopLine == peekTokenStartLine))
    || check_next_tokens_shim tokens [isFlowEntryTok, isKeyTok]

/-- The line selected by `_compose_node_shim` and stamped (plus one) as
`node.__line__`: the innermost flow collection's start line when the
inline-flow-mapping-key flag is set, the loader's current line cursor
otherwise. -/
def compose_stamp_line (isInlineFlowMappingKey : Bool)
    (marksTopLine loaderLine : Nat) : Nat :=
  (if isInlineFlowMappingKey then marksTopLine else loaderLine) + 1

/-!  Definitions following the spec's words (used to compare claims with
the source behaviour). -/

/-- Spec-side reading of claim C3's token condition: "the next two pending
lexical tokens are a flow-entry separator followed by a key marker". -/
def specNextTwoTokens (tokens : List Tok) : Bool :=
  match tokens with
  | t1 :: t2 :: _ => isFlowEntryTok t1 && isKeyTok t2
  | _ => false

/-- Spec-side reading of claim C3's whole flag condition. -/
def specInlineCondition (first : Bool) (marksTopLine : Nat)
    (peekTokenStartLine : Nat) (tokens : List Tok) : Bool :=
  (first && (marksTopLine == peekTokenStartLine)) || specNextTwoTokens tokens

/-- Index of the first `'#'` that is immediately preceded by a whitespace
character (the comment start described by the spec). -/
def specFirstHashIdx (cs : List Char) : Option Nat :=
  (List.range cs.length).find? (fun i =>
    (cs.get? i == Option.some '#') &&
      (match i with
       | 0 => false
       | Nat.succ j => ((cs.get? j).map pyWS).getD false))

/-- The maximal whitespace run immediately preceding position `i`. -/
def wsRunEndingAt (cs : List Char) (i : Nat) : List Char :=
  ((cs.take i).reverse.takeWhile pyWS).reverse

/-- Spec-side reading of claim C8's comment rule on a source line: the
comment "begins at the first `#` preceded by at least one whitespace
character and extends to the end of the line" (taken together with its
preceding whitespace run, which the worked example of the claim includes);
empty when no such `#` exists. -/
def specTrailingComment (rawLine : String) : String :=
  match specFirstHashIdx rawLine.data with
  | Option.some i => String.mk (wsRunEndingAt rawLine.data i ++ rawLine.data.drop i)
  | Option.none => ""

/-!  A well-markedness predicate for constructed values: every dict that
carries the `'__line__'` key is a complete provenance carrier whose
`__line__` is an int within `[1, n]`, no string contains `'__line__'` as a
substring, and no list contains the very string `'__line__'`.  Values
produced by `_tag_dict_values` from in-range line stamps satisfy it;
crafted documents that reuse the reserved key names need not. -/

mutual

def goodMarkers (n : Nat) : PyVal → Bool
  | .dict es =>
    if es.any (fun e => eqLineStr e.1) then
      (es.find? (fun e => eqStrName "__original_key__" e.1)).isSome &&
      (es.find? (fun e => eqStrName "__value__" e.1)).isSome &&
      (match es.find? (fun e => eqStrName "__line__" e.1) with
       | Option.some e =>
         (match e.2 with
          | .int l => decide (1 ≤ l) && decide (l ≤ (n : Int))
          | _ => false)
       | Option.none => false)
    else goodPairs n es
  | .list xs => !xs.any eqLineStr && goodElems n xs
  | .str s => !hasLineSub s.data
  | _ => true

def goodPairs (n : Nat) : List (PyVal × PyVal) → Bool
  | [] => true
  | e :: rest => goodMarkers n e.2 && goodPairs n rest

def goodElems (n : Nat) : List PyVal → Bool
  | [] => true
  | v :: rest => goodMarkers n v && goodElems n rest

end

/-!  Helper lemmas. -/

theorem insertByLine_perm (x : YAMLValue) (l : List YAMLValue) :
    (insertByLine x l).Perm (x :: l) := by
  induction l with
  | nil => exact List.Perm.refl _
  | cons y ys ih =>
    by_cases h : x.line_number ≤ y.line_number
    · simp [insertByLine, h]
    · simp only [insertByLine, h, if_false]
      exact (ih.cons y).trans (List.Perm.swap x y ys)

theorem mem_insertByLine {z x : YAMLValue} {l : List YAMLValue} :
    z ∈ insertByLine x l ↔ z = x ∨ z ∈ l := by
  rw [(insertByLine_perm x l).mem_iff]
  simp

theorem sortItems_perm (items : List YAMLValue) : (sortItems items).Perm items := by
  induction items with
  | nil => exact List.Perm.refl _
  | cons x xs ih => exact (insertByLine_perm x (sortItems xs)).trans (ih.cons x)

theorem insertByLine_pairwise (x : YAMLValue) (l : List YAMLValue)
    (h : l.Pairwise (fun a b => a.line_number ≤ b.line_number)) :
    (insertByLine x l).Pairwise (fun a b => a.line_number ≤ b.line_number) := by
  induction l with
  | nil => simp [insertByLine]
  | cons y ys ih =>
    rw [List.pairwise_cons] at h
    by_cases hxy : x.line_number ≤ y.line_number
    · simp only [insertByLine, hxy, if_true]
      rw [List.pairwise_cons]
      refine ⟨?_, List.pairwise_cons.mpr h⟩
      intro b hb
      rcases List.mem_cons.mp hb with hb | hb
      · exact hb ▸ hxy
      · exact le_trans hxy (h.1 b hb)
    · simp only [insertByLine, hxy, if_false]
      rw [List.pairwise_cons]
      refine ⟨?_, ih h.2⟩
      intro b hb
      rcases mem_insertByLine.mp hb with hb | hb
      · exact hb ▸ le_of_not_le hxy
      · exact h.1 b hb

theorem sortItems_pairwise (items : List YAMLValue) :
    (sortItems items).Pairwise (fun a b => a.line_number ≤ b.line_number) := by
  induction items with
  | nil => simp [sortItems]
  | cons x xs ih => exact insertByLine_pairwise x (sortItems xs) ih

theorem escape_quote_escaped (l : List Char) :
    ∀ i, ((l.map escapeChar).flatten)[i]? = Option.some '"' →
      0 < i ∧ ((l.map escapeChar).flatten)[i - 1]? = Option.some '\\' := by
  induction l with
  | nil => intro i h; simp at h
  | cons c l ih =>
    intro i h
    by_cases hc : c = '"'
    · subst hc
      simp only [List.map_cons, List.flatten_cons, escapeChar, if_pos rfl] at h ⊢
      rcases i with _ | _ | n
      · simp at h
      · exact ⟨Nat.zero_lt_one, rfl⟩
      · have h' := ih n (by simpa using h)
        rcases h' with ⟨hn, hm⟩
        rcases n with _ | m
        · exact absurd hn (by omega)
        · exact ⟨by omega, by simpa using hm⟩
    · simp only [List.map_cons, List.flatten_cons, escapeChar, if_neg hc] at h ⊢
      rcases i with _ | n
      · simp at h
        exact absurd h hc
      · have h' := ih n (by simpa using h)
        rcases h' with ⟨hn, hm⟩
        rcases n with _ | m
        · exact absurd hn (by omega)
        · exact ⟨by omega, by simpa using hm⟩

theorem renderLine_ok (item : YAMLValue) (h : isStrOrBytes item.value = true) :
    renderLine item = Except.ok (renderLineStr item) := by
  rcases item with ⟨k, v, n, line⟩
  cases v <;> simp_all [isStrOrBytes, renderLine, renderCore, renderLineStr, valueText]

/-!  Claim theorems. -/

/-- C2: any grammar/syntax error the external YAML machinery raises while
producing the item sequence is caught at the `parse_file` boundary and
surfaced as the single `ParsingError`; the `Except` result carries no
partial line list — the operation either completes fully or fails
outright. -/
theorem c2_failure_boundary (lines : List String) (jsonRes : Except PyErr PyVal)
    (h : jsonRes = Except.error PyErr.yamlError) :
    parse_file lines jsonRes = Except.error PyErr.parsingError := by
  subst h; rfl

/-- Witness for C2 at a concrete ill-formed parse. -/
theorem c2_failure_boundary_witness :
    parse_file ["key: value"] (Except.error PyErr.yamlError)
      = Except.error PyErr.parsingError :=
  c2_failure_boundary ["key: value"] (Except.error PyErr.yamlError) rfl

/-- C5: the sequence handed to the reconstruction loop is the
explicitly sorted (ascending by `line_number`) permutation of the emitted
items — `processItems` feeds `buildLines` with `sortItems items`, which is
sorted regardless of the breadth-first emission order. -/
theorem c5_sorted_by_line (items : List YAMLValue) :
    (sortItems items).Pairwise (fun a b => a.line_number ≤ b.line_number)
    ∧ (sortItems items).Perm items
    ∧ processItems items = buildLines (sortItems items) :=
  ⟨sortItems_pairwise items, sortItems_perm items, rfl⟩

/-- C6: every reconstructed line is rendered exactly as
`{key}: "{escapedValue}"{comment}` (shown for str and for bytes values,
the latter after base64 re-encoding), it starts with the original key
followed by `: `, and in the escaped value every double-quote character is
immediately preceded by a backslash. -/
theorem c6_render_format (key s : String) (b : List Nat) (n : Int) (line : String) :
    renderLine (YAMLValue.mk (PyVal.str key) (PyVal.str s) n line)
      = Except.ok (key ++ ": \"" ++ escapeQuotes s ++ "\"" ++ commentOf line)
    ∧ renderLine (YAMLValue.mk (PyVal.str key) (PyVal.bytes b) n line)
      = Except.ok (key ++ ": \"" ++ escapeQuotes (b64encodeStr b) ++ "\"" ++ commentOf line)
    ∧ (∃ t, key ++ ": \"" ++ escapeQuotes s ++ "\"" ++ commentOf line = (key ++ ": ") ++ t)
    ∧ (∀ i, (escapeQuotes s).data[i]? = Option.some '"' →
        0 < i ∧ (escapeQuotes s).data[i - 1]? = Option.some '\\') := by
  refine ⟨rfl, rfl, ⟨"\"" ++ escapeQuotes s ++ "\"" ++ commentOf line, ?_⟩, ?_⟩
  · apply String.ext
    simp [String.data_append]
  · intro i h
    exact escape_quote_escaped s.data i h

/-- Witness for C6 at a concrete item whose value embeds a quote. -/
theorem c6_render_format_witness :
    renderLine (YAMLValue.mk (PyVal.str "key") (PyVal.str "va\"lue") 1 "key: va\"lue")
      = Except.ok ("key" ++ ": \"" ++ escapeQuotes "va\"lue" ++ "\"" ++ commentOf "key: va\"lue")
    ∧ renderLine (YAMLValue.mk (PyVal.str "key") (PyVal.bytes [1, 2]) 1 "key: x")
      = Except.ok ("key" ++ ": \"" ++ escapeQuotes (b64encodeStr [1, 2]) ++ "\"" ++ commentOf "key: x")
    ∧ (∃ t, "key" ++ ": \"" ++ escapeQuotes "va\"lue" ++ "\"" ++ commentOf "key: va\"lue"
        = ("key" ++ ": ") ++ t)
    ∧ (∀ i, (escapeQuotes "va\"lue").data[i]? = Option.some '"' →
        0 < i ∧ (escapeQuotes "va\"lue").data[i - 1]? = Option.some '\\') := by
  have h := c6_render_format "key" "va\"lue" [1, 2] 1 "key: va\"lue"
  exact ⟨h.1, by rfl, h.2.2.1, h.2.2.2⟩

/-- C7: a bytes value is re-encoded with standard base64 before escaping
and rendering; in particular the binary scalar decoded from `aGVsbG8=`
under key `data` on line 1 reconstructs to `data: "aGVsbG8="`. -/
theorem c7_binary_base64 (key : String) (b : List Nat) (n : Int) (line : String) :
    renderLine (YAMLValue.mk (PyVal.str key) (PyVal.bytes b) n line)
      = Except.ok (key ++ ": \"" ++ escapeQuotes (b64encodeStr b) ++ "\"" ++ commentOf line)
    ∧ renderLine (YAMLValue.mk (PyVal.str "data") (PyVal.bytes [104, 101, 108, 108, 111]) 1
        "data: !!binary aGVsbG8=")
      = Except.ok "data: \"aGVsbG8=\"" :=
  ⟨rfl, by rfl⟩

/-- C3 counterexample: with a single buffered flow-entry token the code
sets the inline-flow-mapping-key flag (the conjunction loop of
`_check_next_tokens_shim` silently skips choices beyond the buffered
tokens), while the claim's condition — the next *two* pending tokens being
a flow-entry separator followed by a key marker — is false. -/
theorem c3_counterexample :
    is_inline_dictionary false 0 0 [Tok.flowEntry] = true
    ∧ specInlineCondition false 0 0 [Tok.flowEntry] = false := by
  exact ⟨rfl, rfl⟩

/-- C3 (amended): the flag is set exactly when (this is the first key and
the mapping's recorded start line equals the upcoming key token's line) or
the buffered token list is non-empty and each of its first up-to-two
tokens matches the corresponding pattern (flow-entry separator, key
marker); the claim's two-token condition implies the code's; when the flag
is set the next composed node is stamped with the flow collection's start
line plus one instead of the cursor line plus one. -/
theorem c3_flow_mapping_flag_amended (first : Bool) (m p l : Nat) (tokens : List Tok) :
    (is_inline_dictionary first m p tokens
      = ((first && (m == p))
          || (!tokens.isEmpty && checkChoicesLoop [isFlowEntryTok, isKeyTok] tokens)))
    ∧ (specInlineCondition first m p tokens = true →
        is_inline_dictionary first m p tokens = true)
    ∧ compose_stamp_line true m l = m + 1
    ∧ compose_stamp_line false m l = l + 1 := by
  refine ⟨?_, ?_, rfl, rfl⟩
  · cases tokens <;> rfl
  · intro h
    rcases tokens with _ | ⟨t1, _ | ⟨t2, rest⟩⟩ <;>
      simp_all [specInlineCondition, specNextTwoTokens, is_inline_dictionary,
        check_next_tokens_shim, checkChoicesLoop]

/-- Witness for C3 (amended) at the state reached before `key2` of
`{key: value,\n\nkey2: value2}`: buffered tokens (flow-entry, key), flag
decision true, stamped line = brace line 0 plus one. -/
theorem c3_flow_mapping_flag_amended_witness :
    (is_inline_dictionary false 0 2 [Tok.flowEntry, Tok.keyTok]
      = ((false && ((0 : Nat) == (2 : Nat)))
          || (!([Tok.flowEntry, Tok.keyTok] : List Tok).isEmpty
              && checkChoicesLoop [isFlowEntryTok, isKeyTok] [Tok.flowEntry, Tok.keyTok])))
    ∧ (specInlineCondition false 0 2 [Tok.flowEntry, Tok.keyTok] = true →
        is_inline_dictionary false 0 2 [Tok.flowEntry, Tok.keyTok] = true)
    ∧ compose_stamp_line true 0 2 = 0 + 1
    ∧ compose_stamp_line false 0 2 = 2 + 1 :=
  c3_flow_mapping_flag_amended false 0 2 2 [Tok.flowEntry, Tok.keyTok]

/-- C4 counterexample: a mapping pair whose value is a *nested mapping
node* explicitly tagged `tag:yaml.org,2002:str` (as composed from
`a: !!str {}`) is not passed through unchanged — `_tag_dict_values`
selects pairs by tag suffix alone and rewrites it into the three-field
provenance mapping. -/
theorem c4_counterexample :
    Node.mappingPairs (tag_dict_values (Node.mapping "tag:yaml.org,2002:map"
        [(Node.scalar "tag:yaml.org,2002:str" "a" 1,
          Node.mapping "tag:yaml.org,2002:str" [] 1)] 1))
      ≠ [(Node.scalar "tag:yaml.org,2002:str" "a" 1,
          Node.mapping "tag:yaml.org,2002:str" [] 1)] := by
  intro h
  have h2 := congrArg (fun l => (l.map (fun p => (Prod.snd p).mappingPairs.length))) h
  exact absurd h2 (by decide)

/-- C4 (amended): in `_tag_dict_values` every (key, value) pair of a
mapping node whose value's *tag* ends in `:str` or `:binary` — under
standard implicit resolution exactly the string/binary scalars, but also
any explicitly so-tagged node — is rewritten into a mapping of exactly the
three fields `__value__`, `__line__` (the stamped line, stringified),
`__original_key__` (the key node's payload); every pair whose value's tag
does not so end is passed through unchanged. -/
theorem c4_tagging_amended (mapTag : String) (key value : Node)
    (pairsList : List (Node × Node)) (ln : Nat) :
    ((strEndsWith value.tag ":str" || strEndsWith value.tag ":binary") = false →
      rewritePair mapTag (key, value) = (key, value))
    ∧ ((strEndsWith value.tag ":str" || strEndsWith value.tag ":binary") = true →
      rewritePair mapTag (key, value) = (key, Node.mapping mapTag
        [(Node.scalar "tag:yaml.org,2002:str" "__value__" 0,
          mkScalarNode value.tag value.payload),
         (Node.scalar "tag:yaml.org,2002:str" "__line__" 0,
          Node.scalar "tag:yaml.org,2002:int" (toString value.lineAttr) 0),
         (Node.scalar "tag:yaml.org,2002:str" "__original_key__" 0,
          mkScalarNode "tag:yaml.org,2002:str" key.payload)] 0))
    ∧ tag_dict_values (Node.mapping mapTag pairsList ln)
      = Node.mapping mapTag (pairsList.map (rewritePair mapTag)) 0 := by
  refine ⟨?_, ?_, rfl⟩
  · intro h
    simp [rewritePair, h]
  · intro h
    simp [rewritePair, h, create_key_value_pair_for_mapping_node_value, mkScalarNode]

theorem all_takeWhile_self {α : Type} (p : α → Bool) (l : List α) :
    (l.takeWhile p).all p = true := by
  induction l with
  | nil => rfl
  | cons a l ih =>
    by_cases h : p a
    · rw [List.takeWhile_cons, if_pos h, List.all_cons, h, Bool.true_and]
      exact ih
    · simp [List.takeWhile_cons, h]

theorem dropWhile_head_not {α : Type} (p : α → Bool) (l : List α) :
    l.dropWhile p = [] ∨ ∃ d t, l.dropWhile p = d :: t ∧ p d = false := by
  induction l with
  | nil => exact Or.inl rfl
  | cons a l ih =>
    by_cases h : p a
    · simpa [List.dropWhile_cons, h] using ih
    · refine Or.inr ⟨a, l, by simp [List.dropWhile_cons, h], ?_⟩
      simp at h
      exact h

theorem commentLoop_sound (cs : List Char) : ∀ (acc out : List Char),
    acc.all pyWS = true → commentLoop acc cs = Option.some out →
    ∃ run rest pre mid,
      out = run ++ '#' :: rest ∧ run ≠ [] ∧ run.all pyWS = true ∧
      rest.all inCommentCls = true ∧
      acc.reverse ++ cs = pre ++ run ++ '#' :: rest ++ mid ∧
      (mid = [] ∨ ∃ d mid2, mid = d :: mid2 ∧ inCommentCls d = false) := by
  induction cs with
  | nil => intro acc out hacc h; simp [commentLoop] at h
  | cons c cs ih =>
    intro acc out hacc h
    rw [commentLoop] at h
    by_cases hc : c = '#'
    · rw [if_pos hc] at h
      by_cases hrun : acc.isEmpty
      · rw [if_pos hrun] at h
        obtain ⟨run, rest, pre, mid, h1, h2, h3, h4, h5, h6⟩ := ih [] out (by simp) h
        refine ⟨run, rest, acc.reverse ++ c :: pre, mid, h1, h2, h3, h4, ?_, h6⟩
        simp only [List.reverse_nil, List.nil_append] at h5
        simp [h5, List.append_assoc]
      · rw [if_neg hrun] at h
        have hout : acc.reverse ++ '#' :: cs.takeWhile inCommentCls = out :=
          Option.some.inj h
        refine ⟨acc.reverse, cs.takeWhile inCommentCls, [],
          cs.dropWhile inCommentCls, hout.symm, ?_, ?_, ?_, ?_, ?_⟩
        · intro hh
          exact hrun (by simp [List.isEmpty_iff, ← List.reverse_eq_nil_iff, hh])
        · rw [List.all_reverse]; exact hacc
        · exact all_takeWhile_self inCommentCls cs
        · rw [hc]
          simp [List.append_assoc, List.takeWhile_append_dropWhile]
        · exact dropWhile_head_not inCommentCls cs
    · rw [if_neg hc] at h
      by_cases hws : pyWS c
      · rw [if_pos hws] at h
        obtain ⟨run, rest, pre, mid, h1, h2, h3, h4, h5, h6⟩ :=
          ih (c :: acc) out (by simp [List.all_cons, hws, hacc]) h
        refine ⟨run, rest, pre, mid, h1, h2, h3, h4, ?_, h6⟩
        simpa [List.append_assoc] using h5
      · rw [if_neg hws] at h
        obtain ⟨run, rest, pre, mid, h1, h2, h3, h4, h5, h6⟩ := ih [] out (by simp) h
        refine ⟨run, rest, acc.reverse ++ c :: pre, mid, h1, h2, h3, h4, ?_, h6⟩
        simp only [List.reverse_nil, List.nil_append] at h5
        simp [h5, List.append_assoc]

theorem commentLoop_complete (pre : List Char) : ∀ (acc : List Char) (c : Char)
    (tail : List Char), pyWS c = true →
    ∃ out, commentLoop acc (pre ++ c :: '#' :: tail) = Option.some out := by
  induction pre with
  | nil =>
    intro acc c tail hc
    have hc' : ¬ c = '#' := by
      intro hh; subst hh
      simp [pyWS] at hc
    rw [List.nil_append, commentLoop, if_neg hc', if_pos hc, commentLoop]
    simp
  | cons p pre ih =>
    intro acc c tail hc
    rw [List.cons_append, commentLoop]
    by_cases hp : p = '#'
    · rw [if_pos hp]
      by_cases ha : acc.isEmpty
      · rw [if_pos ha]; exact ih [] c tail hc
      · rw [if_neg ha]; exact ⟨_, rfl⟩
    · rw [if_neg hp]
      by_cases hw : pyWS p
      · rw [if_pos hw]; exact ih (p :: acc) c tail hc
      · rw [if_neg hw]; exact ih [] c tail hc

/-- Witness for C4 (amended) at a concrete mapping with one string-scalar
pair and one integer-scalar pair. -/
theorem c4_tagging_amended_witness :
    (strEndsWith (Node.scalar "tag:yaml.org,2002:str" "secret" 1).tag ":str"
      || strEndsWith (Node.scalar "tag:yaml.org,2002:str" "secret" 1).tag ":binary") = true
    ∧ rewritePair "tag:yaml.org,2002:map"
        (Node.scalar "tag:yaml.org,2002:str" "k" 1,
         Node.scalar "tag:yaml.org,2002:str" "secret" 1)
      = (Node.scalar "tag:yaml.org,2002:str" "k" 1, Node.mapping "tag:yaml.org,2002:map"
        [(Node.scalar "tag:yaml.org,2002:str" "__value__" 0,
          mkScalarNode (Node.scalar "tag:yaml.org,2002:str" "secret" 1).tag
            (Node.scalar "tag:yaml.org,2002:str" "secret" 1).payload),
         (Node.scalar "tag:yaml.org,2002:str" "__line__" 0,
          Node.scalar "tag:yaml.org,2002:int"
            (toString (Node.scalar "tag:yaml.org,2002:str" "secret" 1).lineAttr) 0),
         (Node.scalar "tag:yaml.org,2002:str" "__original_key__" 0,
          mkScalarNode "tag:yaml.org,2002:str"
            (Node.scalar "tag:yaml.org,2002:str" "k" 1).payload)] 0)
    ∧ rewritePair "tag:yaml.org,2002:map"
        (Node.scalar "tag:yaml.org,2002:str" "k2" 1, Node.scalar "tag:yaml.org,2002:int" "5" 1)
      = (Node.scalar "tag:yaml.org,2002:str" "k2" 1, Node.scalar "tag:yaml.org,2002:int" "5" 1) := by
  have h := c4_tagging_amended "tag:yaml.org,2002:map"
    (Node.scalar "tag:yaml.org,2002:str" "k" 1)
    (Node.scalar "tag:yaml.org,2002:str" "secret" 1) [] 0
  have h2 := c4_tagging_amended "tag:yaml.org,2002:map"
    (Node.scalar "tag:yaml.org,2002:str" "k2" 1)
    (Node.scalar "tag:yaml.org,2002:int" "5" 1) [] 0
  exact ⟨by rfl, h.2.1 (by rfl), h2.1 (by rfl)⟩

/-- C8 counterexample: the code's comment does *not* extend to the end of
the line — the regex tail `[\S ]*` stops at a tab (and the search runs on
the stripped line), so for source line `key: value # a<TAB>b` the rendered
line ends with ` # a`, not with the claim's to-end-of-line comment
` # a<TAB>b`. -/
theorem c8_counterexample :
    commentOf "key: value # a\tb" = " # a"
    ∧ specTrailingComment "key: value # a\tb" = " # a\tb"
    ∧ renderLine (YAMLValue.mk (PyVal.str "key") (PyVal.str "value") 1 "key: value # a\tb")
        = Except.ok "key: \"value\" # a"
    ∧ commentOf "key: value # a\tb" ≠ specTrailingComment "key: value # a\tb" :=
  ⟨by decide, by decide, by rfl, by decide⟩

/-- C8 (amended): the comment appended to a rendered line is the first
match of `(\s+#[\S ]*)` on the whitespace-stripped source line — a
non-empty whitespace run, the first whitespace-preceded `'#'`, and the
longest following run of spaces/non-whitespace characters (it stops before
a tab or other non-space whitespace rather than reaching the end of the
line); whenever some `'#'` is immediately preceded by whitespace a match
exists; if no match exists the comment is empty; for input line
`key: value # secret here` the reconstructed line ends with
` # secret here` verbatim after the quoted value. -/
theorem c8_comment_rule_amended :
    (∀ raw out, commentSearch (pyStrip raw).data = Option.some out →
      ∃ run rest pre mid, out = run ++ '#' :: rest ∧ run ≠ [] ∧ run.all pyWS = true ∧
        rest.all inCommentCls = true ∧
        (pyStrip raw).data = pre ++ run ++ '#' :: rest ++ mid ∧
        (mid = [] ∨ ∃ d mid2, mid = d :: mid2 ∧ inCommentCls d = false))
    ∧ (∀ pre c tail, pyWS c = true →
        ∃ out, commentSearch (pre ++ c :: '#' :: tail) = Option.some out)
    ∧ commentOf "key: value # secret here" = " # secret here"
    ∧ renderLine (YAMLValue.mk (PyVal.str "key") (PyVal.str "value") 1 "key: value # secret here")
        = Except.ok "key: \"value\" # secret here" := by
  refine ⟨?_, ?_, by decide, by rfl⟩
  · intro raw out h
    have h2 := commentLoop_sound (pyStrip raw).data [] out (by simp) h
    simpa using h2
  · intro pre c tail hc
    exact commentLoop_complete pre [] c tail hc

/-!  Flattener lemmas for C9 and C10. -/

theorem PyVal.size_pos (v : PyVal) : 1 ≤ v.size := by
  cases v <;> simp only [PyVal.size] <;> omega

theorem sizeList_append (a b : List PyVal) :
    sizeList (a ++ b) = sizeList a + sizeList b := by
  induction a with
  | nil => simp [sizeList]
  | cons v a ih => simp [sizeList, ih]; omega

theorem sizeList_values (es : List (PyVal × PyVal)) :
    sizeList (es.map (fun e => e.2)) = sizePairs es := by
  induction es with
  | nil => rfl
  | cons e es ih => simp [sizeList, sizePairs, ih]

theorem goodPairs_mem (n : Nat) (es : List (PyVal × PyVal))
    (h : goodPairs n es = true) : ∀ e ∈ es, goodMarkers n e.2 = true := by
  induction es with
  | nil => intro e he; simp at he
  | cons e es ih =>
    rw [goodPairs, Bool.and_eq_true] at h
    intro u hu
    rcases List.mem_cons.mp hu with hu | hu
    · exact hu ▸ h.1
    · exact ih h.2 u hu

theorem goodElems_mem (n : Nat) (xs : List PyVal)
    (h : goodElems n xs = true) : ∀ v ∈ xs, goodMarkers n v = true := by
  induction xs with
  | nil => intro v hv; simp at hv
  | cons x xs ih =>
    rw [goodElems, Bool.and_eq_true] at h
    intro v hv
    rcases List.mem_cons.mp hv with hv | hv
    · exact hv ▸ h.1
    · exact ih h.2 v hv

theorem pyGet_in_range {α : Type} (xs : List α) (l : Int)
    (h1 : 1 ≤ l) (h2 : l ≤ (xs.length : Int)) :
    ∃ a, pyGet xs (l - 1) = Option.some a := by
  have h0 : (0 : Int) ≤ l - 1 := by omega
  have hlt : (l - 1).toNat < xs.length := by omega
  refine ⟨xs.get ⟨(l - 1).toNat, hlt⟩, ?_⟩
  rw [pyGet, if_pos h0]
  exact List.get?_eq_get hlt

/-- Characterisation of one loop step for well-marked values: skip,
descend into smaller well-marked children, or emit a record whose line
number is within `[1, len(lines)]`. -/
theorem step_good (lines : List String) (v : PyVal)
    (h : goodMarkers lines.length v = true) :
    step lines v = StepRes.skip
    ∨ (∃ cs, step lines v = StepRes.descend cs ∧ sizeList cs < v.size
        ∧ ∀ u ∈ cs, goodMarkers lines.length u = true)
    ∨ (∃ yv, step lines v = StepRes.emit yv ∧ 1 ≤ yv.line_number
        ∧ yv.line_number ≤ (lines.length : Int)) := by
  cases v with
  | str s =>
    left
    by_cases hs : s == ""
    · simp [step, isFalsy, hs]
    · rw [goodMarkers] at h
      simp only [Bool.not_eq_true'] at h
      simp [step, isFalsy, hs, hasMarkerChk, h]
  | int n => left; by_cases hn : n == 0 <;> simp [step, isFalsy, hn, hasMarkerChk]
  | float q => left; by_cases hq : q == 0 <;> simp [step, isFalsy, hq, hasMarkerChk]
  | bool b => left; cases b <;> simp [step, isFalsy, hasMarkerChk]
  | none => left; simp [step, isFalsy]
  | bytes b => left; by_cases hb : b.isEmpty <;> simp [step, isFalsy, hb, hasMarkerChk]
  | dict es =>
    by_cases he : es.isEmpty
    · left; simp [step, isFalsy, he]
    · rw [goodMarkers] at h
      by_cases hm : es.any (fun e => eqLineStr e.1)
      · rw [if_pos hm] at h
        rw [Bool.and_eq_true, Bool.and_eq_true] at h
        obtain ⟨⟨hk, hv⟩, hl⟩ := h
        obtain ⟨ek, hek⟩ := Option.isSome_iff_exists.mp hk
        obtain ⟨ev, hev⟩ := Option.isSome_iff_exists.mp hv
        rcases hfl : es.find? (fun e => eqStrName "__line__" e.1) with _ | el
        · rw [hfl] at hl; simp at hl
        · rw [hfl] at hl
          have hl2 : (match el.2 with
              | PyVal.int l => decide (1 ≤ l) && decide (l ≤ (lines.length : Int))
              | _ => false) = true := hl
          rcases hel2 : el.2 with s | b | l | q | b | _ | d | xs <;> rw [hel2] at hl2 <;>
            try simp at hl2
          obtain ⟨a, ha⟩ := pyGet_in_range lines l hl2.1 hl2.2
          right; right
          refine ⟨YAMLValue.mk ek.2 ev.2 l a, ?_, hl2.1, hl2.2⟩
          simp only [step, isFalsy, he, Bool.false_eq_true, if_false, hasMarkerChk, hm,
            getItem, hek, hev, hfl, hel2, asIndex, ha]
      · rw [if_neg hm] at h
        right; left
        refine ⟨es.map (fun e => e.2), ?_, ?_, ?_⟩
        · simp only [Bool.not_eq_true] at hm
          simp [step, isFalsy, he, hasMarkerChk, hm]
        · rw [sizeList_values, PyVal.size]
          omega
        · intro u hu
          obtain ⟨e, he2, hu2⟩ := List.mem_map.mp hu
          exact hu2 ▸ goodPairs_mem lines.length es h e he2
  | list xs =>
    by_cases he : xs.isEmpty
    · left; simp [step, isFalsy, he]
    · rw [goodMarkers, Bool.and_eq_true] at h
      right; left
      refine ⟨xs, ?_, ?_, goodElems_mem lines.length xs h.2⟩
      · have hm : xs.any eqLineStr = false := by
          have := h.1
          simp only [Bool.not_eq_true'] at this
          exact this
        simp [step, isFalsy, he, hasMarkerChk, hm]
      · rw [PyVal.size]
        omega

theorem iterQueue_good (fuel : Nat) : ∀ (q : List PyVal) (lines : List String),
    (∀ v ∈ q, goodMarkers lines.length v = true) → sizeList q ≤ fuel →
    ∃ items, iterQueue lines fuel q = Except.ok items ∧
      ∀ x ∈ items, 1 ≤ x.line_number ∧ x.line_number ≤ (lines.length : Int) := by
  induction fuel with
  | zero =>
    intro q lines hq hs
    cases q with
    | nil => exact ⟨[], rfl, by simp⟩
    | cons v rest =>
      exfalso
      have h1 := PyVal.size_pos v
      rw [sizeList] at hs
      omega
  | succ fuel ih =>
    intro q lines hq hs
    cases q with
    | nil => exact ⟨[], rfl, by simp⟩
    | cons v rest =>
      have hv := hq v (by simp)
      have hrest : ∀ u ∈ rest, goodMarkers lines.length u = true :=
        fun u hu => hq u (by simp [hu])
      rw [sizeList] at hs
      have hpos := PyVal.size_pos v
      rcases step_good lines v hv with hstep | ⟨cs, hstep, hlt, hcs⟩ | ⟨yv, hstep, hb1, hb2⟩
      · obtain ⟨items, hit, hall⟩ := ih rest lines hrest (by omega)
        refine ⟨items, ?_, hall⟩
        rw [iterQueue, hstep]
        exact hit
      · obtain ⟨items, hit, hall⟩ := ih (rest ++ cs) lines
          (by
            intro u hu
            rcases List.mem_append.mp hu with hu | hu
            · exact hrest u hu
            · exact hcs u hu)
          (by rw [sizeList_append]; omega)
        refine ⟨items, ?_, hall⟩
        rw [iterQueue, hstep]
        exact hit
      · obtain ⟨items, hit, hall⟩ := ih rest lines hrest (by omega)
        refine ⟨yv :: items, ?_, ?_⟩
        · rw [iterQueue, hstep, hit]
        · intro x hx
          rcases List.mem_cons.mp hx with hx | hx
          · exact hx ▸ ⟨hb1, hb2⟩
          · exact hall x hx

/-- Inversion for the descend case of `step`: only dicts (their values)
and lists (their elements) are descended into. -/
theorem step_descend_children (lines : List String) (v : PyVal) (cs : List PyVal)
    (h : step lines v = StepRes.descend cs) :
    (∃ es, v = PyVal.dict es ∧ cs = es.map (fun e => e.2))
    ∨ (∃ xs, v = PyVal.list xs ∧ cs = xs) := by
  cases v with
  | str s =>
    by_cases hs : s == ""
    · simp [step, isFalsy, hs] at h
    · cases hsub : hasLineSub s.data <;>
        simp [step, isFalsy, hs, hasMarkerChk, hsub, getItem] at h
  | int n => by_cases hn : n == 0 <;> simp [step, isFalsy, hn, hasMarkerChk] at h
  | float q => by_cases hq : q == 0 <;> simp [step, isFalsy, hq, hasMarkerChk] at h
  | bool b => cases b <;> simp [step, isFalsy, hasMarkerChk] at h
  | none => simp [step, isFalsy] at h
  | bytes b => by_cases hb : b.isEmpty <;> simp [step, isFalsy, hb, hasMarkerChk] at h
  | dict es =>
    by_cases he : es.isEmpty
    · simp [step, isFalsy, he] at h
    · cases hm : es.any (fun e => eqLineStr e.1) with
      | false =>
        left
        refine ⟨es, rfl, ?_⟩
        simp [step, isFalsy, he, hasMarkerChk, hm] at h
        exact h.symm
      | true =>
        exfalso
        simp only [step, isFalsy, he, Bool.false_eq_true, if_false,
          hasMarkerChk, hm] at h
        rcases hk : getItem (PyVal.dict es) "__original_key__" with e | k <;>
          rw [hk] at h
        · simp at h
        rcases hv : getItem (PyVal.dict es) "__value__" with e | v2 <;> rw [hv] at h
        · simp at h
        rcases hl : getItem (PyVal.dict es) "__line__" with e | lv <;> rw [hl] at h
        · simp at h
        have h2 : (match asIndex lv with
            | Option.none => StepRes.error PyErr.typeError
            | Option.some n =>
              match pyGet lines (n - 1) with
              | Option.none => StepRes.error PyErr.indexError
              | Option.some line => StepRes.emit (YAMLValue.mk k v2 n line))
            = StepRes.descend cs := h
        rcases ha : asIndex lv with _ | n <;> rw [ha] at h2
        · simp at h2
        have h3 : (match pyGet lines (n - 1) with
            | Option.none => StepRes.error PyErr.indexError
            | Option.some line => StepRes.emit (YAMLValue.mk k v2 n line))
            = StepRes.descend cs := h2
        rcases hg : pyGet lines (n - 1) with _ | a <;> rw [hg] at h3 <;> simp at h3
  | list xs =>
    by_cases he : xs.isEmpty
    · simp [step, isFalsy, he] at h
    · cases hm : xs.any eqLineStr with
      | false =>
        right
        refine ⟨xs, rfl, ?_⟩
        simp [step, isFalsy, he, hasMarkerChk, hm] at h
        exact h.symm
      | true =>
        simp [step, isFalsy, he, hasMarkerChk, hm, getItem] at h

/-- The children pushed by a descend step are strictly smaller than the
popped item, so the fuel `iterItems` supplies always suffices. -/
theorem step_descend_size (lines : List String) (v : PyVal) (cs : List PyVal)
    (h : step lines v = StepRes.descend cs) : sizeList cs < v.size := by
  rcases step_descend_children lines v cs h with ⟨es, rfl, rfl⟩ | ⟨xs, rfl, rfl⟩
  · rw [sizeList_values, PyVal.size]
    omega
  · rw [PyVal.size]
    omega

/-- Adequacy of the fuel encoding: above the queue's total structural size
the result of `iterQueue` does not depend on the fuel, so `iterItems`
(which starts from that size) computes the unbounded loop of
`__iter__`. -/
theorem iterQueue_fuel_irrelevant (lines : List String) : ∀ (n f : Nat) (q : List PyVal),
    sizeList q ≤ n → n ≤ f → iterQueue lines f q = iterQueue lines n q := by
  intro n
  induction n with
  | zero =>
    intro f q hq hf
    cases q with
    | nil => cases f <;> rfl
    | cons v rest =>
      rw [sizeList] at hq
      have := PyVal.size_pos v
      omega
  | succ n ih =>
    intro f q hq hf
    cases q with
    | nil => cases f <;> rfl
    | cons v rest =>
      rcases f with _ | f'
      · omega
      · rw [sizeList] at hq
        have hv := PyVal.size_pos v
        rw [iterQueue, iterQueue]
        cases hstep : step lines v with
        | skip =>
          simp only [hstep]
          exact ih f' rest (by omega) (by omega)
        | descend cs =>
          simp only [hstep]
          have hsz := step_descend_size lines v cs hstep
          exact ih f' (rest ++ cs) (by rw [sizeList_append]; omega) (by omega)
        | emit yv =>
          simp only [hstep]
          rw [ih f' rest (by omega) (by omega)]
        | error e => simp only [hstep]

/-- C9 counterexample: a genuine document dict that merely contains the
reserved key `'__line__'` (from the valid document `__line__: 5`) is
neither descended into nor silently skipped — the loop treats it as a
provenance carrier and the `item['__original_key__']` lookup raises an
uncaught `KeyError`. -/
theorem c9_counterexample :
    iterItems ["__line__: 5"] (PyVal.dict [(PyVal.str "__line__", PyVal.int 5)])
      = Except.error PyErr.keyError := by rfl

/-- C9 (amended): every queue item *without* the `'__line__'` marker —
where for non-container scalars (ints, floats, bools, None, bytes) the
membership test's `TypeError` is caught and counts as "no marker" — is
either silently skipped or descended into (dict values / list elements)
and is never emitted and never raises; items that do carry the marker
(the provenance mapping, but also colliding document content such as a
dict with a real `__line__` key) are emitted, which can fail for
colliding content. -/
theorem c9_flattener_skip_amended (lines : List String) (item : PyVal)
    (h : hasMarkerB item = false) :
    step lines item = StepRes.skip
    ∨ ∃ cs, step lines item = StepRes.descend cs := by
  cases item with
  | str s =>
    left
    by_cases hs : s == ""
    · simp [step, isFalsy, hs]
    · have hsub : hasLineSub s.data = false := by
        simpa [hasMarkerB, hasMarkerChk] using h
      simp [step, isFalsy, hs, hasMarkerChk, hsub]
  | int n => left; by_cases hn : n == 0 <;> simp [step, isFalsy, hn, hasMarkerChk]
  | float q => left; by_cases hq : q == 0 <;> simp [step, isFalsy, hq, hasMarkerChk]
  | bool b => left; cases b <;> simp [step, isFalsy, hasMarkerChk]
  | none => left; simp [step, isFalsy]
  | bytes b => left; by_cases hb : b.isEmpty <;> simp [step, isFalsy, hb, hasMarkerChk]
  | dict es =>
    by_cases he : es.isEmpty
    · left; simp [step, isFalsy, he]
    · have hm : (es.any fun e => eqLineStr e.1) = false := by
        simpa [hasMarkerB, hasMarkerChk] using h
      right
      exact ⟨es.map (fun e => e.2), by simp [step, isFalsy, he, hasMarkerChk, hm]⟩
  | list xs =>
    by_cases he : xs.isEmpty
    · left; simp [step, isFalsy, he]
    · have hm : xs.any eqLineStr = false := by
        simpa [hasMarkerB, hasMarkerChk] using h
      right
      exact ⟨xs, by simp [step, isFalsy, he, hasMarkerChk, hm]⟩

/-- Witness for C9 (amended) at a bare number: the `TypeError` of the
membership check is non-fatal and the item is skipped. -/
theorem c9_flattener_skip_amended_witness :
    hasMarkerB (PyVal.float 3) = false
    ∧ (step ["a: 1.5"] (PyVal.float 3) = StepRes.skip
        ∨ ∃ cs, step ["a: 1.5"] (PyVal.float 3) = StepRes.descend cs) :=
  ⟨by rfl, c9_flattener_skip_amended ["a: 1.5"] (PyVal.float 3) (by rfl)⟩

/-- C10 counterexample: the valid one-line flow-mapping document
`{__line__: 99, __value__: v, __original_key__: k}` constructs (after the
tagging pass wraps the two string values) a dict that carries a real
`__line__` key bound to 99; iteration yields it with line number 99 on a
one-line document, and the `lines[99 - 1]` source-line lookup raises an
uncaught `IndexError`. -/
theorem c10_counterexample :
    iterItems ["\x7b__line__: 99, __value__: v, __original_key__: k\x7d"]
      (PyVal.dict [(PyVal.str "__line__", PyVal.int 99),
        (PyVal.str "__value__", PyVal.dict [(PyVal.str "__value__", PyVal.str "v"),
          (PyVal.str "__line__", PyVal.int 1),
          (PyVal.str "__original_key__", PyVal.str "__value__")]),
        (PyVal.str "__original_key__", PyVal.dict [(PyVal.str "__value__", PyVal.str "k"),
          (PyVal.str "__line__", PyVal.int 1),
          (PyVal.str "__original_key__", PyVal.str "__original_key__")])])
      = Except.error PyErr.indexError := by rfl

/-- C10 (amended): provided every dict reachable by the flattening loop
that carries the `'__line__'` key is a complete provenance mapping whose
`__line__` is an int within `[1, len(lines)]` — which the tagging pass
produces for in-range stamps, but which crafted documents reusing the
reserved key names can violate — iteration succeeds and every yielded
record's `line_number` lies within `[1, len(lines)]`, so every
`lines[line_number - 1]` lookup performed during iteration is in range. -/
theorem c10_line_range_amended (lines : List String) (root : PyVal)
    (h : goodMarkers lines.length root = true) :
    ∃ items, iterItems lines root = Except.ok items ∧
      ∀ x ∈ items, 1 ≤ x.line_number ∧ x.line_number ≤ (lines.length : Int) :=
  iterQueue_good (sizeList [root]) [root] lines
    (by
      intro v hv
      rw [List.mem_singleton] at hv
      exact hv ▸ h)
    le_rfl

/-!  Reconstruction lemmas for C1. -/

theorem pairwise_lt_of_sorted_nodup (l : List YAMLValue)
    (h1 : l.Pairwise (fun a b => a.line_number ≤ b.line_number))
    (h2 : (l.map (fun x => x.line_number)).Nodup) :
    l.Pairwise (fun a b => a.line_number < b.line_number) := by
  have h3 : l.Pairwise (fun a b => a.line_number ≠ b.line_number) :=
    List.pairwise_map.mp h2
  exact (h1.and h3).imp (fun h => lt_of_le_of_ne h.1 h.2)

theorem buildLinesAux_spec (items : List YAMLValue) : ∀ (acc : List String),
    items.Pairwise (fun a b => a.line_number < b.line_number) →
    (∀ x ∈ items, (acc.length : Int) < x.line_number) →
    (∀ x ∈ items, isStrOrBytes x.value = true) →
    ∃ out, buildLinesAux acc items = Except.ok out ∧
      acc.length ≤ out.length ∧
      (∀ i, i < acc.length → out[i]? = acc[i]?) ∧
      (∀ x ∈ items, out[Int.toNat x.line_number - 1]? = Option.some (renderLineStr x)) ∧
      (∀ x ∈ items, Int.toNat x.line_number ≤ out.length) ∧
      (out.length = acc.length ∨ ∃ y ∈ items, (out.length : Int) = y.line_number) ∧
      (∀ i, acc.length ≤ i → i < out.length →
        (∀ x ∈ items, Int.toNat x.line_number - 1 ≠ i) → out[i]? = Option.some "") := by
  induction items with
  | nil =>
    intro acc _ _ _
    exact ⟨acc, rfl, le_rfl, fun i _ => rfl, by simp, by simp, Or.inl rfl,
      fun i hi1 hi2 _ => absurd hi2 (by omega)⟩
  | cons item rest ih =>
    intro acc hpw hbound hsb
    have hr : renderLine item = Except.ok (renderLineStr item) :=
      renderLine_ok item (hsb item (by simp))
    have hLpos : (acc.length : Int) < item.line_number := hbound item (by simp)
    have hpw' := List.pairwise_cons.mp hpw
    have hpadlen : (acc ++ List.replicate
        (Int.toNat (item.line_number - 1 - (acc.length : Int))) "").length
        = Int.toNat item.line_number - 1 := by
      simp only [List.length_append, List.length_replicate]
      omega
    have hacclen : ((acc ++ List.replicate
        (Int.toNat (item.line_number - 1 - (acc.length : Int))) "")
        ++ [renderLineStr item]).length = Int.toNat item.line_number := by
      simp only [List.length_append, List.length_replicate, List.length_cons,
        List.length_nil]
      omega
    obtain ⟨out, hout, hle, hpres, hpos, hub, hlen2, hgap⟩ :=
      ih ((acc ++ List.replicate
            (Int.toNat (item.line_number - 1 - (acc.length : Int))) "")
          ++ [renderLineStr item])
        hpw'.2
        (by
          intro x hx
          have h1 := hpw'.1 x hx
          rw [hacclen]
          omega)
        (fun x hx => hsb x (by simp [hx]))
    have hdispatch : buildLinesAux acc (item :: rest) = Except.ok out := by
      rw [buildLinesAux, hr]
      exact hout
    have haccle : acc.length ≤ ((acc ++ List.replicate
        (Int.toNat (item.line_number - 1 - (acc.length : Int))) "")
        ++ [renderLineStr item]).length := by
      simp only [List.length_append]
      omega
    refine ⟨out, hdispatch, le_trans haccle hle, ?_, ?_, ?_, ?_, ?_⟩
    · intro i hi
      rw [hpres i (by omega)]
      rw [List.getElem?_append_left (by rw [hpadlen]; omega),
        List.getElem?_append_left hi]
    · intro x hx
      rcases List.mem_cons.mp hx with hx | hx
      · subst hx
        have hidx : Int.toNat x.line_number - 1 = (acc ++ List.replicate
            (Int.toNat (x.line_number - 1 - (acc.length : Int))) "").length := by
          rw [hpadlen]
        rw [hidx, hpres _ (by omega)]
        exact List.getElem?_concat_length _ _
      · exact hpos x hx
    · intro x hx
      rcases List.mem_cons.mp hx with hx | hx
      · subst hx
        rw [← hacclen]
        exact hle
      · exact hub x hx
    · rcases hlen2 with hl | ⟨y, hy, hyl⟩
      · right
        refine ⟨item, by simp, ?_⟩
        rw [hl, hacclen]
        omega
      · exact Or.inr ⟨y, by simp [hy], hyl⟩
    · intro i hi1 hi2 havoid
      by_cases hcase : i < ((acc ++ List.replicate
          (Int.toNat (item.line_number - 1 - (acc.length : Int))) "")
          ++ [renderLineStr item]).length
      · rw [hpres i hcase]
        have hne : Int.toNat item.line_number - 1 ≠ i := havoid item (by simp)
        have hexp : (acc ++ List.replicate
            (Int.toNat (item.line_number - 1 - (acc.length : Int))) "").length
            = acc.length + Int.toNat (item.line_number - 1 - (acc.length : Int)) := by
          simp
        have hipad : i < (acc ++ List.replicate
            (Int.toNat (item.line_number - 1 - (acc.length : Int))) "").length := by
          rw [hpadlen]
          rw [hacclen] at hcase
          exact Nat.lt_of_le_of_ne (Nat.le_pred_of_lt hcase) (Ne.symm hne)
        rw [List.getElem?_append_left hipad,
          List.getElem?_append_right hi1, List.getElem?_replicate,
          if_pos (by omega)]
      · exact hgap i (by omega) hi2 (fun x hx => havoid x (by simp [hx]))

/-- C1 counterexample: the two-line document `key: value` followed by
`# trailing comment` yields the single annotated value
(key, "value", line 1, source line `key: value`) — the trailing comment
line carries no value — and the reconstructed output has exactly one
entry, fewer than the document's two lines, refuting "at least N
entries". -/
theorem c1_counterexample :
    processItems [YAMLValue.mk (PyVal.str "key") (PyVal.str "value") 1 "key: value"]
      = Except.ok ["key: \"value\""]
    ∧ (["key: \"value\""] : List String).length
        < (["key: value", "# trailing comment"] : List String).length :=
  ⟨by rfl, by decide⟩

/-- C1 (amended): for items whose recorded line numbers are at least 1 and
pairwise distinct (and whose values are str or bytes, as every normally
tagged item's are), reconstruction succeeds; the entry at 0-based index
L−1 is the rendered line of the item recorded at line L (its value
surrounded by double quotes); every line index carrying no item is filled
with the empty string; and the output's length is the maximum recorded
line number — which can be smaller than the number of document lines, and
the recorded line need not be the line on which the value begins. -/
theorem c1_reconstruction_amended (items : List YAMLValue)
    (h1 : ∀ x ∈ items, 1 ≤ x.line_number)
    (h2 : (items.map (fun x => x.line_number)).Nodup)
    (h3 : ∀ x ∈ items, isStrOrBytes x.value = true) :
    ∃ out, processItems items = Except.ok out ∧
      (∀ x ∈ items, out[Int.toNat x.line_number - 1]? = Option.some (renderLineStr x)) ∧
      (∀ x ∈ items, Int.toNat x.line_number ≤ out.length) ∧
      (out.length = 0 ∨ ∃ y ∈ items, (out.length : Int) = y.line_number) ∧
      (∀ i, i < out.length → (∀ x ∈ items, Int.toNat x.line_number - 1 ≠ i) →
        out[i]? = Option.some "") := by
  have hperm := sortItems_perm items
  have hsorted := sortItems_pairwise items
  have hnodup : ((sortItems items).map (fun x => x.line_number)).Nodup :=
    (List.Perm.nodup_iff (hperm.map (fun x => x.line_number))).mpr h2
  have hlt := pairwise_lt_of_sorted_nodup (sortItems items) hsorted hnodup
  obtain ⟨out, hout, _, _, hpos, hub, hlen, hgap⟩ :=
    buildLinesAux_spec (sortItems items) [] hlt
      (by
        intro x hx
        have := h1 x (hperm.mem_iff.mp hx)
        simp only [List.length_nil, Nat.cast_zero]
        omega)
      (fun x hx => h3 x (hperm.mem_iff.mp hx))
  refine ⟨out, hout, ?_, ?_, ?_, ?_⟩
  · intro x hx
    exact hpos x (hperm.mem_iff.mpr hx)
  · intro x hx
    exact hub x (hperm.mem_iff.mpr hx)
  · rcases hlen with hl | ⟨y, hy, hyl⟩
    · exact Or.inl hl
    · exact Or.inr ⟨y, hperm.mem_iff.mp hy, hyl⟩
  · intro i hi havoid
    exact hgap i (by simp) hi (fun x hx => havoid x (hperm.mem_iff.mp hx))

/-- Witness for C1 (amended) on two concrete items recorded at lines 1 and
3 (as from `a: x` / blank-ish line 2 / `b: y`). -/
theorem c1_reconstruction_amended_witness :
    (∀ x ∈ [YAMLValue.mk (PyVal.str "b") (PyVal.str "y") 3 "b: y",
        YAMLValue.mk (PyVal.str "a") (PyVal.str "x") 1 "a: x"], 1 ≤ x.line_number)
    ∧ ∃ out, processItems [YAMLValue.mk (PyVal.str "b") (PyVal.str "y") 3 "b: y",
        YAMLValue.mk (PyVal.str "a") (PyVal.str "x") 1 "a: x"] = Except.ok out ∧
      (∀ x ∈ [YAMLValue.mk (PyVal.str "b") (PyVal.str "y") 3 "b: y",
          YAMLValue.mk (PyVal.str "a") (PyVal.str "x") 1 "a: x"],
        out[Int.toNat x.line_number - 1]? = Option.some (renderLineStr x)) ∧
      (∀ x ∈ [YAMLValue.mk (PyVal.str "b") (PyVal.str "y") 3 "b: y",
          YAMLValue.mk (PyVal.str "a") (PyVal.str "x") 1 "a: x"],
        Int.toNat x.line_number ≤ out.length) ∧
      (out.length = 0 ∨ ∃ y ∈ [YAMLValue.mk (PyVal.str "b") (PyVal.str "y") 3 "b: y",
          YAMLValue.mk (PyVal.str "a") (PyVal.str "x") 1 "a: x"],
        (out.length : Int) = y.line_number) ∧
      (∀ i, i < out.length →
        (∀ x ∈ [YAMLValue.mk (PyVal.str "b") (PyVal.str "y") 3 "b: y",
            YAMLValue.mk (PyVal.str "a") (PyVal.str "x") 1 "a: x"],
          Int.toNat x.line_number - 1 ≠ i) → out[i]? = Option.some "") := by
  refine ⟨by decide, ?_⟩
  exact c1_reconstruction_amended
    [YAMLValue.mk (PyVal.str "b") (PyVal.str "y") 3 "b: y",
     YAMLValue.mk (PyVal.str "a") (PyVal.str "x") 1 "a: x"]
    (by decide) (by decide) (by decide)

/-- Witness for C10 (amended) on the tagged value of the one-line document
`a: x`. -/
theorem c10_line_range_amended_witness :
    goodMarkers (["a: x"] : List String).length
      (PyVal.dict [(PyVal.str "a",
        PyVal.dict [(PyVal.str "__value__", PyVal.str "x"),
          (PyVal.str "__line__", PyVal.int 1),
          (PyVal.str "__original_key__", PyVal.str "a")])]) = true
    ∧ ∃ items, iterItems ["a: x"]
        (PyVal.dict [(PyVal.str "a",
          PyVal.dict [(PyVal.str "__value__", PyVal.str "x"),
            (PyVal.str "__line__", PyVal.int 1),
            (PyVal.str "__original_key__", PyVal.str "a")])]) = Except.ok items ∧
        ∀ x ∈ items, 1 ≤ x.line_number ∧ x.line_number ≤ ((["a: x"] : List String).length : Int) :=
  ⟨by rfl, c10_line_range_amended ["a: x"]
    (PyVal.dict [(PyVal.str "a",
      PyVal.dict [(PyVal.str "__value__", PyVal.str "x"),
        (PyVal.str "__line__", PyVal.int 1),
        (PyVal.str "__original_key__", PyVal.str "a")])]) (by rfl)⟩

end DS
